import Mathlib

/-!
Verification of the JKU ground-truth CSV converter (`src/parsers/jku_parser.py`).

The Python script walks `<root>/groundTruth/<piece>/<type>/repeatedPatterns/<annotator>/
<pattern>/occurrences/csv/*.csv`, parses each CSV row into one observation, and
assembles one JAMS annotation record per processed pattern list.

The shallow embedding below models:
  * CSV field conversion (`float(...)` / `int(...)` on plain decimal literals) over `Rat`/`Int`;
  * `parse_patterns` (row parsing, pattern/occurrence id counters, metadata constants,
    the literal `"test.jams"` save target);
  * `get_out_file` (output name derivation from the first occurrence path, with the
    `assert`, `list.index` and subscript failures surfaced as an error type);
  * `get_gt_patterns` (per-annotator pattern directory flattening);
  * `process` (piece/type loop, the polyphonic allow-list filter including Python's
    remove-while-iterating semantics, and the sequence of file writes).

Directory contents (the results of `glob.glob`) are modelled as explicit lists, in
listing order; file contents are modelled as the list of CSV lines `csv.reader` yields.
-/

/-- The `value` dictionary built for each CSV row in `parse_patterns`. -/
structure PatternValue where
  midi_pitch : Rat
  morph_pitch : Rat
  staff : Int
  pattern_id : Nat
  occurrence_id : Nat
  deriving DecidableEq, Repr

/-- One observation added via `annot.data.add_observation(time=..., duration=..., value=...)`. -/
structure Observation where
  time : Rat
  duration : Rat
  value : PatternValue
  deriving DecidableEq, Repr

/-- `jams.Curator(name=..., email=...)`. -/
structure Curator where
  name : String
  email : String
  deriving DecidableEq, Repr

/-- `jams.AnnotationMetadata(curator=..., version=..., corpus=...)`. -/
structure AnnMeta where
  curator : Curator
  version : String
  corpus : String
  deriving DecidableEq, Repr

/-- The single annotation record appended to the JAMS object: namespace tag,
metadata and the ordered observation list. -/
structure Annot where
  ns : String
  meta : AnnMeta
  data : List Observation
  deriving DecidableEq, Repr

/-- One occurrence CSV file: its path and the rows `csv.reader` yields (one per line). -/
structure CSVFile where
  path : String
  lines : List String
  deriving DecidableEq, Repr

/-- One entry of an annotator directory listing: `os.path.isdir` flag and, when it is a
pattern directory, the files matched by `occurrences/csv/*.csv` under it. -/
structure PatternEntry where
  isDir : Bool
  occurrences : List CSVFile
  deriving DecidableEq, Repr

/-- One annotator directory: its basename (`os.path.split(annotator)[1]`) and its listing. -/
structure Annotator where
  name : String
  patterns : List PatternEntry
  deriving DecidableEq, Repr

/-- One piece directory under `groundTruth`: the annotator listings of its
`monophonic/repeatedPatterns` and `polyphonic/repeatedPatterns` subdirectories. -/
structure Piece where
  monophonic : List Annotator
  polyphonic : List Annotator
  deriving DecidableEq, Repr

/-- Split a character list at every separator occurrence; models Python
`str.split(sep)` for a one-character separator (so `[] ↦ [[]]`). -/
def splitListOn (sep : Char) : List Char → List (List Char)
  | [] => [[]]
  | c :: rest =>
    if c = sep then [] :: splitListOn sep rest
    else
      match splitListOn sep rest with
      | [] => [[c]]
      | g :: gs => (c :: g) :: gs

/-- Decimal value of a digit list (most significant first). -/
def digitsVal (l : List Char) : Nat :=
  l.foldl (fun acc c => 10 * acc + (c.toNat - 48)) 0

/-- Strip an optional leading sign, returning the sign and the remaining characters. -/
def splitSignChars : List Char → Int × List Char
  | [] => (1, [])
  | c :: rest =>
    if c = '-' then (-1, rest)
    else if c = '+' then (1, rest)
    else (1, c :: rest)

/-- Models Python `float(s)` restricted to plain decimal literals (optional sign,
digits, optional decimal point): exponents, `inf`/`nan` and surrounding whitespace
are treated as unparseable (`none`, i.e. `ValueError`). All values in the JKU CSV
files are plain decimals, which this model converts exactly. -/
def parseFloat (s : String) : Option Rat :=
  let (sg, body) := splitSignChars s.toList
  match splitListOn '.' body with
  | [ip] =>
    if ip ≠ [] ∧ ip.all Char.isDigit then
      some ((sg : Rat) * (digitsVal ip : Rat))
    else none
  | [ip, fp] =>
    if (ip ≠ [] ∨ fp ≠ []) ∧ ip.all Char.isDigit ∧ fp.all Char.isDigit then
      some ((sg : Rat) * ((digitsVal ip : Rat) + (digitsVal fp : Rat) / (10 : Rat) ^ fp.length))
    else none
  | _ => none

/-- Models Python `int(s)` restricted to plain decimal integer literals. -/
def parseIntStr (s : String) : Option Int :=
  let (sg, body) := splitSignChars s.toList
  if body ≠ [] ∧ body.all Char.isDigit then some (sg * (digitsVal body : Nat)) else none

/-- Models `csv.reader` on one line of these quote-free numeric CSV files:
splitting the line at commas. -/
def csvSplit (line : String) : List String :=
  (splitListOn ',' line.toList).map String.mk

/-- Models Python `path.split("/")`. -/
def pathSplit (s : String) : List String :=
  (splitListOn '/' s.toList).map String.mk

/-- The exceptions `parse_patterns` can raise per row: `IndexError` from a subscript
`fields[i]` past the end, `ValueError` from `float(...)`/`int(...)`. -/
inductive ParseError where
  | indexError
  | valueError
  deriving DecidableEq, Repr

/-- `float(fields[i])`: subscript then conversion. -/
def fieldFloat (fields : List String) (i : Nat) : Except ParseError Rat :=
  match fields[i]? with
  | none => .error .indexError
  | some s =>
    match parseFloat s with
    | none => .error .valueError
    | some q => .ok q

/-- `int(fields[i])`: subscript then conversion. -/
def fieldInt (fields : List String) (i : Nat) : Except ParseError Int :=
  match fields[i]? with
  | none => .error .indexError
  | some s =>
    match parseIntStr s with
    | none => .error .valueError
    | some n => .ok n

/-- One loop body of `for fields in file_reader` in `parse_patterns`: builds the
`value` dict (fields 1, 2, 4 in source order) and the observation
(`time=float(fields[0])`, `duration=float(fields[3])`). -/
def parseRow (pattern_n occ_n : Nat) (fields : List String) : Except ParseError Observation :=
  match fieldFloat fields 1 with
  | .error e => .error e
  | .ok midi =>
    match fieldFloat fields 2 with
    | .error e => .error e
    | .ok morph =>
      match fieldInt fields 4 with
      | .error e => .error e
      | .ok staff =>
        match fieldFloat fields 0 with
        | .error e => .error e
        | .ok t =>
          match fieldFloat fields 3 with
          | .error e => .error e
          | .ok dur =>
            .ok { time := t, duration := dur,
                  value := { midi_pitch := midi, morph_pitch := morph, staff := staff,
                             pattern_id := pattern_n, occurrence_id := occ_n } }

/-- All rows of one occurrence file, in row order, with the current counters. -/
def parseLines (pattern_n occ_n : Nat) : List String → Except ParseError (List Observation)
  | [] => .ok []
  | line :: rest =>
    match parseRow pattern_n occ_n (csvSplit line) with
    | .error e => .error e
    | .ok o =>
      match parseLines pattern_n occ_n rest with
      | .error e => .error e
      | .ok os => .ok (o :: os)

/-- The `for occ_file in pattern` loop: `occ_n` starts at the given value and
increments after each file. -/
def parseOccs (pattern_n : Nat) : Nat → List CSVFile → Except ParseError (List Observation)
  | _, [] => .ok []
  | occ_n, f :: rest =>
    match parseLines pattern_n occ_n f.lines with
    | .error e => .error e
    | .ok os =>
      match parseOccs pattern_n (occ_n + 1) rest with
      | .error e => .error e
      | .ok rest' => .ok (os ++ rest')

/-- The `for pattern in patterns` loop: `pattern_n` starts at the given value and
increments after each pattern; `occ_n` restarts at 1. -/
def parsePats : Nat → List (List CSVFile) → Except ParseError (List Observation)
  | _, [] => .ok []
  | pattern_n, pat :: rest =>
    match parseOccs pattern_n 1 pat with
    | .error e => .error e
    | .ok os =>
      match parsePats (pattern_n + 1) rest with
      | .error e => .error e
      | .ok rest' => .ok (os ++ rest')

/-- The constant curator of every produced document. -/
def jkuCurator : Curator := { name := "Tom Collins", email := "tom.collins@dmu.ac.uk" }

/-- The constant annotation metadata of every produced document. -/
def jkuMeta : AnnMeta :=
  { curator := jkuCurator, version := "August2013", corpus := "JKU Development Dataset" }

/-- The annotation record `parse_patterns` builds around an observation list. -/
def mkAnnot (obs : List Observation) : Annot :=
  { ns := "pattern_jku", meta := jkuMeta, data := obs }

/-- `parse_patterns(patterns, out_file)`: parses every pattern with `pattern_n`
starting at 1 and returns the pair (filename actually passed to `jam.save`,
document). The code calls `jam.save("test.jams")`, ignoring `out_file`. -/
def parse_patterns (patterns : List (List CSVFile)) (out_file : String) :
    Except ParseError (String × Annot) :=
  match parsePats 1 patterns with
  | .error e => .error e
  | .ok obs => .ok ("test.jams", mkAnnot obs)

/-- The exceptions `get_out_file` can raise: the failed `assert`, `ValueError`
from `list.index` when `groundTruth` is absent, `IndexError` from a subscript. -/
inductive OutFileError where
  | assertionError
  | valueError
  | indexError
  deriving DecidableEq, Repr

/-- Models `os.path.join(dir, name)` for a directory path without trailing slash. -/
def joinPath (dir name : String) : String := dir ++ "/" ++ name

/-- `get_out_file(patterns, out_dir)`: asserts a non-empty pattern list, splits the
first occurrence path at `/`, finds the `groundTruth` segment (`idx_offset` is its
index minus 1) and joins the segments at `idx_offset + 2` and `idx_offset + 3`
with a hyphen, under `out_dir`, with extension `.txt`. -/
def get_out_file (patterns : List (List CSVFile)) (out_dir : String) :
    Except OutFileError String :=
  match patterns with
  | [] => .error .assertionError
  | pat0 :: _ =>
    match pat0 with
    | [] => .error .indexError
    | f0 :: _ =>
      let name_split := pathSplit f0.path
      match name_split.findIdx? (· == "groundTruth") with
      | none => .error .valueError
      | some idx =>
        match name_split[idx + 1]?, name_split[idx + 2]? with
        | some a, some b => .ok (joinPath out_dir (a ++ "-" ++ b ++ ".txt"))
        | _, _ => .error .indexError

/-- `get_gt_patterns(annotators)`: for each annotator in order, each listing entry
that is a directory contributes the list of its occurrence CSV files. -/
def get_gt_patterns (annotators : List Annotator) : List (List CSVFile) :=
  annotators.flatMap fun a => (a.patterns.filter fun e => e.isDir).map fun e => e.occurrences

/-- Python `list.remove(x)`: drop the first element equal to `x`. -/
def removeFirst {α : Type} [DecidableEq α] (x : α) : List α → List α
  | [] => []
  | y :: ys => if y = x then ys else y :: removeFirst x ys

/-- One CPython list-iterator pass over a list being mutated in its own loop body:
the iterator keeps a position `i`; each step yields the element now at `i`,
advances `i`, and the body may `remove` that element (shifting later elements
left, so the next element is skipped). `fuel` bounds the step count; the loop
stops as soon as `i` is past the end. -/
def pyRemoveLoop {α : Type} [DecidableEq α] (bad : α → Bool) : Nat → Nat → List α → List α
  | 0, _, l => l
  | fuel + 1, i, l =>
    match l[i]? with
    | none => l
    | some x => pyRemoveLoop bad fuel (i + 1) (if bad x then removeFirst x l else l)

/-- `for annotator in annotators: if bad(annotator): annotators.remove(annotator)` —
the in-place filter in `process`, with CPython iterator semantics. Since `i`
advances every step, `l.length` fuel always suffices. -/
def pyFilterRemove {α : Type} [DecidableEq α] (bad : α → Bool) (l : List α) : List α :=
  pyRemoveLoop bad l.length 0 l

/-- The two annotation types, in the order `process` iterates them. -/
inductive AnnType where
  | monophonic
  | polyphonic
  deriving DecidableEq, Repr

/-- `types = ["monophonic", "polyphonic"]`. -/
def AnnTypes : List AnnType := [AnnType.monophonic, AnnType.polyphonic]

/-- The allow-list of polyphonic annotators hard-coded in `process`. -/
def valid_annotators : List String :=
  ["barlowAndMorgensternRevised", "bruhn", "schoenberg", "sectionalRepetitions", "tomCollins"]

/-- The annotator listing of a piece for one annotation type. -/
def annotatorsFor (p : Piece) : AnnType → List Annotator
  | AnnType.monophonic => p.monophonic
  | AnnType.polyphonic => p.polyphonic

/-- The removal condition of the polyphonic filter:
`os.path.split(annotator)[1] not in valid_annotators`. -/
def badAnnotator (a : Annotator) : Bool :=
  !(valid_annotators.contains a.name)

/-- The body of the `for type in types` loop in `process`: glob the annotators,
apply the in-place allow-list filter when the type is polyphonic, and collect
`get_gt_patterns` of the result (one entry appended to `all_patterns`). -/
def processPieceType (p : Piece) (ty : AnnType) : List (List CSVFile) :=
  let annotators := annotatorsFor p ty
  let selected := if ty = AnnType.polyphonic then pyFilterRemove badAnnotator annotators else annotators
  get_gt_patterns selected

/-- The `all_patterns` list `process` builds: one entry per (piece, type) pair,
appended in piece order then type order. -/
def all_patterns (pieces : List Piece) : List (List (List CSVFile)) :=
  pieces.flatMap fun p => AnnTypes.map (processPieceType p)

/-- An unhandled exception escaping the final loop of `process`. -/
inductive ProcError where
  | outFile (e : OutFileError)
  | parse (e : ParseError)
  deriving DecidableEq, Repr

/-- The final `for patterns in all_patterns` loop of `process`: per entry, compute
`get_out_file` then run `parse_patterns` (which saves). Returns the sequence of
(filename, document) writes performed, and the first unhandled exception if one
occurs (later entries are not processed, and a failing entry writes nothing). -/
def processLoop (out_dir : String) :
    List (List (List CSVFile)) → List (String × Annot) × Option ProcError
  | [] => ([], none)
  | patterns :: rest =>
    match get_out_file patterns out_dir with
    | .error e => ([], some (ProcError.outFile e))
    | .ok out_file =>
      match parse_patterns patterns out_file with
      | .error e => ([], some (ProcError.parse e))
      | .ok w =>
        let r := processLoop out_dir rest
        (w :: r.1, r.2)

/-- `process(jku_dir, out_dir)`: build `all_patterns` from the piece listing, then
run the save loop. -/
def process (pieces : List Piece) (out_dir : String) :
    List (String × Annot) × Option ProcError :=
  processLoop out_dir (all_patterns pieces)

/-- The on-disk state after a sequence of writes: later writes to the same
filename overwrite earlier ones. -/
def diskAfter (writes : List (String × Annot)) : String → Option Annot :=
  writes.foldl (fun d w => fun k => if k = w.1 then some w.2 else d k) (fun _ => none)

/-- The observations one occurrence file contributes under given counters
(empty when it fails to parse); characterization vocabulary for the theorems. -/
def occParsed (pattern_n occ_n : Nat) (f : CSVFile) : List Observation :=
  match parseLines pattern_n occ_n f.lines with
  | .ok os => os
  | .error _ => []

/-- The observations one pattern contributes under a given `pattern_n`
(empty when it fails to parse); characterization vocabulary for the theorems. -/
def patParsed (pattern_n : Nat) (pat : List CSVFile) : List Observation :=
  match parseOccs pattern_n 1 pat with
  | .ok os => os
  | .error _ => []

/-- The observation block of pattern position `i`, occurrence position `j`
(0-based positions, 1-based ids), for a given pattern list. -/
def occObs (pats : List (List CSVFile)) (i j : Nat) : List Observation :=
  match pats[i]? with
  | none => []
  | some pat =>
    match pat[j]? with
    | none => []
    | some f => occParsed (i + 1) (j + 1) f

/-- Map with an explicit running index. -/
def mapIdxFrom {α β : Type} (f : Nat → α → β) : Nat → List α → List β
  | _, [] => []
  | i, a :: l => f i a :: mapIdxFrom f (i + 1) l

/-- The document body as the spec describes it: for each pattern position `i` in
order, for each occurrence position `j` in order, the rows of that file in row
order. -/
def docObs (pats : List (List CSVFile)) : List Observation :=
  List.flatten (mapIdxFrom
    (fun i pat => List.flatten (mapIdxFrom (fun j _ => occObs pats i j) 0 pat)) 0 pats)

/-- A row the spec calls malformed: fewer than 5 columns, or a column that does
not convert to its expected numeric type. -/
def rowMalformed (fields : List String) : Prop :=
  fields.length < 5 ∨
  (∃ s, fields[0]? = some s ∧ parseFloat s = none) ∨
  (∃ s, fields[1]? = some s ∧ parseFloat s = none) ∨
  (∃ s, fields[2]? = some s ∧ parseFloat s = none) ∨
  (∃ s, fields[3]? = some s ∧ parseFloat s = none) ∨
  (∃ s, fields[4]? = some s ∧ parseIntStr s = none)

instance {ε α : Type} [DecidableEq ε] [DecidableEq α] : DecidableEq (Except ε α) := fun x y =>
  match x, y with
  | .error e, .error f =>
    if h : e = f then isTrue (congrArg Except.error h)
    else isFalse fun hh => h (Except.error.inj hh)
  | .error _, .ok _ => isFalse fun hh => Except.noConfusion hh
  | .ok _, .error _ => isFalse fun hh => Except.noConfusion hh
  | .ok a, .ok b =>
    if h : a = b then isTrue (congrArg Except.ok h)
    else isFalse fun hh => h (Except.ok.inj hh)

/-- The occurrence CSV row used by the spec's round-trip property. -/
def jkuRow : String := "1.5,60,33,0.5,1"

/-- The observation `jkuRow` parses to, under given counters. -/
def jkuObs (pattern_n occ_n : Nat) : Observation :=
  { time := 1.5, duration := 0.5,
    value := { midi_pitch := 60, morph_pitch := 33, staff := 1,
               pattern_id := pattern_n, occurrence_id := occ_n } }

/-- Concrete data: an occurrence file under a polyphonic annotator that is not in
the allow-list. -/
def c2File : CSVFile :=
  { path := "jku/groundTruth/chopin/mazurka24-4/polyphonic/repeatedPatterns/unknownB/pat1/occurrences/csv/occ1.csv",
    lines := [jkuRow] }

/-- A non-allow-listed polyphonic annotator with no patterns. -/
def c2AnnotA : Annotator := { name := "unknownA", patterns := [] }

/-- A non-allow-listed polyphonic annotator holding one pattern with one occurrence. -/
def c2AnnotB : Annotator :=
  { name := "unknownB", patterns := [{ isDir := true, occurrences := [c2File] }] }

/-- A piece whose polyphonic listing holds two adjacent non-allow-listed annotators. -/
def c2Piece : Piece := { monophonic := [], polyphonic := [c2AnnotA, c2AnnotB] }

/-- Concrete data: a monophonic occurrence file of a piece with both types. -/
def c3MonoFile : CSVFile :=
  { path := "jku/groundTruth/bach/wtc2f20/monophonic/repeatedPatterns/annotatorX/pat1/occurrences/csv/occ1.csv",
    lines := [jkuRow] }

/-- Concrete data: a polyphonic occurrence file of the same piece. -/
def c3PolyFile : CSVFile :=
  { path := "jku/groundTruth/bach/wtc2f20/polyphonic/repeatedPatterns/bruhn/pat1/occurrences/csv/occ1.csv",
    lines := [jkuRow] }

/-- The piece's single monophonic annotator. -/
def c3Mono : Annotator :=
  { name := "annotatorX", patterns := [{ isDir := true, occurrences := [c3MonoFile] }] }

/-- The piece's single polyphonic annotator (allow-listed). -/
def c3Poly : Annotator :=
  { name := "bruhn", patterns := [{ isDir := true, occurrences := [c3PolyFile] }] }

/-- A piece with one monophonic and one polyphonic annotator, one pattern each. -/
def c3Piece : Piece := { monophonic := [c3Mono], polyphonic := [c3Poly] }

/-- A second well-formed piece, used to exercise multi-piece processing. -/
def c4File1 : CSVFile :=
  { path := "jku/groundTruth/beet/sonata01-3/monophonic/repeatedPatterns/annotatorY/patA/occurrences/csv/occ1.csv",
    lines := [jkuRow] }

/-- Its polyphonic occurrence file. -/
def c4File2 : CSVFile :=
  { path := "jku/groundTruth/beet/sonata01-3/polyphonic/repeatedPatterns/schoenberg/patA/occurrences/csv/occ1.csv",
    lines := [jkuRow] }

/-- Its monophonic annotator. -/
def c4Mono : Annotator :=
  { name := "annotatorY", patterns := [{ isDir := true, occurrences := [c4File1] }] }

/-- Its polyphonic annotator (allow-listed). -/
def c4Poly : Annotator :=
  { name := "schoenberg", patterns := [{ isDir := true, occurrences := [c4File2] }] }

/-- The second piece. -/
def c4Piece : Piece := { monophonic := [c4Mono], polyphonic := [c4Poly] }

/-- A file whose single row has only two columns. -/
def c6File : CSVFile :=
  { path := "jku/groundTruth/mozart/sonata04-2/monophonic/repeatedPatterns/annotatorZ/pat1/occurrences/csv/occ1.csv",
    lines := ["1.5,60"] }

/-- An annotator whose first pattern directory has occurrence files, the second
none, the third one again. -/
def c10Annotator : Annotator :=
  { name := "annotatorW",
    patterns := [{ isDir := true, occurrences := [c3MonoFile] },
                 { isDir := true, occurrences := [] },
                 { isDir := true, occurrences := [c4File1] }] }

theorem fieldFloat_ok_inv {fields : List String} {i : Nat} {q : Rat}
    (h : fieldFloat fields i = .ok q) :
    ∃ s, fields[i]? = some s ∧ parseFloat s = some q := by
  unfold fieldFloat at h
  cases hs : fields[i]? with
  | none => simp only [hs] at h; cases h
  | some s =>
    simp only [hs] at h
    cases hp : parseFloat s with
    | none => simp only [hp] at h; cases h
    | some q' =>
      simp only [hp] at h
      cases h
      exact ⟨s, rfl, hp⟩

theorem fieldInt_ok_inv {fields : List String} {i : Nat} {n : Int}
    (h : fieldInt fields i = .ok n) :
    ∃ s, fields[i]? = some s ∧ parseIntStr s = some n := by
  unfold fieldInt at h
  cases hs : fields[i]? with
  | none => simp only [hs] at h; cases h
  | some s =>
    simp only [hs] at h
    cases hp : parseIntStr s with
    | none => simp only [hp] at h; cases h
    | some n' =>
      simp only [hp] at h
      cases h
      exact ⟨s, rfl, hp⟩

theorem parseRow_of_fields {fields : List String} {t midi morph dur : Rat} {staff : Int}
    (pattern_n occ_n : Nat)
    (h0 : fieldFloat fields 0 = .ok t) (h1 : fieldFloat fields 1 = .ok midi)
    (h2 : fieldFloat fields 2 = .ok morph) (h3 : fieldFloat fields 3 = .ok dur)
    (h4 : fieldInt fields 4 = .ok staff) :
    parseRow pattern_n occ_n fields =
      .ok { time := t, duration := dur,
            value := { midi_pitch := midi, morph_pitch := morph, staff := staff,
                       pattern_id := pattern_n, occurrence_id := occ_n } } := by
  unfold parseRow
  rw [h1, h2, h4, h0, h3]

theorem parseRow_ok_inv {pattern_n occ_n : Nat} {fields : List String} {o : Observation}
    (h : parseRow pattern_n occ_n fields = .ok o) :
    fieldFloat fields 0 = .ok o.time ∧ fieldFloat fields 1 = .ok o.value.midi_pitch ∧
    fieldFloat fields 2 = .ok o.value.morph_pitch ∧ fieldFloat fields 3 = .ok o.duration ∧
    fieldInt fields 4 = .ok o.value.staff ∧
    o.value.pattern_id = pattern_n ∧ o.value.occurrence_id = occ_n := by
  unfold parseRow at h
  cases h1 : fieldFloat fields 1 with
  | error e => simp only [h1] at h; cases h
  | ok midi =>
  simp only [h1] at h
  cases h2 : fieldFloat fields 2 with
  | error e => simp only [h2] at h; cases h
  | ok morph =>
  simp only [h2] at h
  cases h4 : fieldInt fields 4 with
  | error e => simp only [h4] at h; cases h
  | ok staff =>
  simp only [h4] at h
  cases h0 : fieldFloat fields 0 with
  | error e => simp only [h0] at h; cases h
  | ok t =>
  simp only [h0] at h
  cases h3 : fieldFloat fields 3 with
  | error e => simp only [h3] at h; cases h
  | ok dur =>
  simp only [h3] at h
  cases h
  exact ⟨rfl, rfl, rfl, rfl, rfl, rfl, rfl⟩

theorem parseRow_ids {pattern_n occ_n : Nat} {fields : List String} {o : Observation}
    (h : parseRow pattern_n occ_n fields = .ok o) :
    o.value.pattern_id = pattern_n ∧ o.value.occurrence_id = occ_n :=
  ⟨(parseRow_ok_inv h).2.2.2.2.2.1, (parseRow_ok_inv h).2.2.2.2.2.2⟩

theorem parseRow_ok_length {pattern_n occ_n : Nat} {fields : List String} {o : Observation}
    (h : parseRow pattern_n occ_n fields = .ok o) : 5 ≤ fields.length := by
  obtain ⟨s, hs, -⟩ := fieldInt_ok_inv (parseRow_ok_inv h).2.2.2.2.1
  obtain ⟨hlt, -⟩ := List.getElem?_eq_some.mp hs
  omega

theorem parseLines_ok_mem {pattern_n occ_n : Nat} {lines : List String} {os : List Observation}
    (h : parseLines pattern_n occ_n lines = .ok os) :
    ∀ line ∈ lines, ∃ o, parseRow pattern_n occ_n (csvSplit line) = .ok o := by
  induction lines generalizing os with
  | nil => intro line hl; cases hl
  | cons l rest ih =>
    intro line hl
    unfold parseLines at h
    cases hr : parseRow pattern_n occ_n (csvSplit l) with
    | error e => simp only [hr] at h; cases h
    | ok o =>
      simp only [hr] at h
      cases hrest : parseLines pattern_n occ_n rest with
      | error e => simp only [hrest] at h; cases h
      | ok os' =>
        rcases List.mem_cons.mp hl with rfl | hmem
        · exact ⟨o, hr⟩
        · exact ih hrest line hmem

theorem parseLines_ids {pattern_n occ_n : Nat} {lines : List String} {os : List Observation}
    (h : parseLines pattern_n occ_n lines = .ok os) :
    ∀ o ∈ os, o.value.pattern_id = pattern_n ∧ o.value.occurrence_id = occ_n := by
  induction lines generalizing os with
  | nil =>
    unfold parseLines at h
    cases h
    intro o ho; cases ho
  | cons l rest ih =>
    intro o ho
    unfold parseLines at h
    cases hr : parseRow pattern_n occ_n (csvSplit l) with
    | error e => simp only [hr] at h; cases h
    | ok o' =>
      simp only [hr] at h
      cases hrest : parseLines pattern_n occ_n rest with
      | error e => simp only [hrest] at h; cases h
      | ok os' =>
        simp only [hrest] at h
        cases h
        rcases List.mem_cons.mp ho with rfl | hmem
        · exact parseRow_ids hr
        · exact ih hrest o hmem

theorem parseOccs_ok_at {pattern_n : Nat} {pat : List CSVFile} {os : List Observation} :
    ∀ {j0 : Nat}, parseOccs pattern_n j0 pat = .ok os →
    ∀ {j : Nat} {f : CSVFile}, pat[j]? = some f →
    ∃ os', parseLines pattern_n (j0 + j) f.lines = .ok os' := by
  induction pat generalizing os with
  | nil =>
    intro j0 h j f hf
    simp at hf
  | cons f0 rest ih =>
    intro j0 h j f hf
    unfold parseOccs at h
    cases hl : parseLines pattern_n j0 f0.lines with
    | error e => simp only [hl] at h; cases h
    | ok os0 =>
      simp only [hl] at h
      cases hrest : parseOccs pattern_n (j0 + 1) rest with
      | error e => simp only [hrest] at h; cases h
      | ok os1 =>
        cases j with
        | zero =>
          simp only [List.getElem?_cons_zero] at hf
          cases hf
          exact ⟨os0, by simpa using hl⟩
        | succ jj =>
          simp only [List.getElem?_cons_succ] at hf
          have := ih hrest hf
          obtain ⟨os', hos'⟩ := this
          refine ⟨os', ?_⟩
          have harith : j0 + 1 + jj = j0 + (jj + 1) := by omega
          rw [harith] at hos'
          exact hos'

theorem parseOccs_flatten {pattern_n : Nat} {pat : List CSVFile} {os : List Observation} :
    ∀ {j0 : Nat}, parseOccs pattern_n j0 pat = .ok os →
    os = List.flatten (mapIdxFrom (fun onum f => occParsed pattern_n onum f) j0 pat) := by
  induction pat generalizing os with
  | nil =>
    intro j0 h
    unfold parseOccs at h
    cases h
    rfl
  | cons f0 rest ih =>
    intro j0 h
    unfold parseOccs at h
    cases hl : parseLines pattern_n j0 f0.lines with
    | error e => simp only [hl] at h; cases h
    | ok os0 =>
      simp only [hl] at h
      cases hrest : parseOccs pattern_n (j0 + 1) rest with
      | error e => simp only [hrest] at h; cases h
      | ok os1 =>
        simp only [hrest] at h
        cases h
        have hocc : occParsed pattern_n j0 f0 = os0 := by
          unfold occParsed; rw [hl]
        simp only [mapIdxFrom, List.flatten_cons, hocc]
        rw [ih hrest]

theorem parsePats_ok_at {pats : List (List CSVFile)} {obs : List Observation} :
    ∀ {k : Nat}, parsePats k pats = .ok obs →
    ∀ {i : Nat} {pat : List CSVFile}, pats[i]? = some pat →
    ∃ os, parseOccs (k + i) 1 pat = .ok os := by
  induction pats generalizing obs with
  | nil =>
    intro k h i pat hp
    simp at hp
  | cons pat0 rest ih =>
    intro k h i pat hp
    unfold parsePats at h
    cases h0 : parseOccs k 1 pat0 with
    | error e => simp only [h0] at h; cases h
    | ok os0 =>
      simp only [h0] at h
      cases hrest : parsePats (k + 1) rest with
      | error e => simp only [hrest] at h; cases h
      | ok os1 =>
        cases i with
        | zero =>
          simp only [List.getElem?_cons_zero] at hp
          cases hp
          exact ⟨os0, by simpa using h0⟩
        | succ ii =>
          simp only [List.getElem?_cons_succ] at hp
          obtain ⟨os, hos⟩ := ih hrest hp
          refine ⟨os, ?_⟩
          have harith : k + 1 + ii = k + (ii + 1) := by omega
          rw [harith] at hos
          exact hos

theorem parsePats_flatten {pats : List (List CSVFile)} {obs : List Observation} :
    ∀ {k : Nat}, parsePats k pats = .ok obs →
    obs = List.flatten (mapIdxFrom (fun pn pat => patParsed pn pat) k pats) := by
  induction pats generalizing obs with
  | nil =>
    intro k h
    unfold parsePats at h
    cases h
    rfl
  | cons pat0 rest ih =>
    intro k h
    unfold parsePats at h
    cases h0 : parseOccs k 1 pat0 with
    | error e => simp only [h0] at h; cases h
    | ok os0 =>
      simp only [h0] at h
      cases hrest : parsePats (k + 1) rest with
      | error e => simp only [hrest] at h; cases h
      | ok os1 =>
        simp only [hrest] at h
        cases h
        have hpat : patParsed k pat0 = os0 := by
          unfold patParsed; rw [h0]
        simp only [mapIdxFrom, List.flatten_cons, hpat]
        rw [ih hrest]

theorem mapIdxFrom_shift {α β : Type} (f : Nat → α → β) (l : List α) :
    ∀ k, mapIdxFrom f (k + 1) l = mapIdxFrom (fun i a => f (i + 1) a) k l := by
  induction l with
  | nil => intro k; rfl
  | cons a rest ih =>
    intro k
    simp only [mapIdxFrom]
    rw [ih (k + 1)]

theorem mapIdxFrom_congr {α β : Type} {f g : Nat → α → β} {l : List α} :
    ∀ {k : Nat}, (∀ i a, l[i]? = some a → f (k + i) a = g (k + i) a) →
    mapIdxFrom f k l = mapIdxFrom g k l := by
  induction l with
  | nil => intro k _; rfl
  | cons a rest ih =>
    intro k hfg
    simp only [mapIdxFrom]
    have h0 : f k a = g k a := by
      have := hfg 0 a (by simp)
      simpa using this
    rw [h0]
    have htail : ∀ i b, rest[i]? = some b → f (k + 1 + i) b = g (k + 1 + i) b := by
      intro i b hb
      have := hfg (i + 1) b (by simpa using hb)
      have harith : k + (i + 1) = k + 1 + i := by omega
      rw [harith] at this
      exact this
    rw [ih htail]

theorem mem_mapIdxFrom {α β : Type} {f : Nat → α → β} {l : List α} {b : β} :
    ∀ {k : Nat}, b ∈ mapIdxFrom f k l → ∃ i a, l[i]? = some a ∧ b = f (k + i) a := by
  induction l with
  | nil => intro k hb; cases hb
  | cons a rest ih =>
    intro k hb
    simp only [mapIdxFrom] at hb
    rcases List.mem_cons.mp hb with rfl | hmem
    · exact ⟨0, a, by simp, by simp⟩
    · obtain ⟨i, a', ha', hba'⟩ := ih hmem
      refine ⟨i + 1, a', by simpa using ha', ?_⟩
      have harith : k + (i + 1) = k + 1 + i := by omega
      rw [harith]
      exact hba'

theorem occObs_eq {pats : List (List CSVFile)} {i j : Nat} {pat : List CSVFile} {f : CSVFile}
    (hi : pats[i]? = some pat) (hj : pat[j]? = some f) :
    occObs pats i j = occParsed (i + 1) (j + 1) f := by
  unfold occObs
  simp only [hi, hj]

theorem occObs_ids {pats : List (List CSVFile)} {i j : Nat} {o : Observation}
    (ho : o ∈ occObs pats i j) :
    o.value.pattern_id = i + 1 ∧ o.value.occurrence_id = j + 1 := by
  unfold occObs at ho
  cases hi : pats[i]? with
  | none => simp only [hi] at ho; cases ho
  | some pat =>
    simp only [hi] at ho
    cases hj : pat[j]? with
    | none => simp only [hj] at ho; cases ho
    | some f =>
      simp only [hj] at ho
      unfold occParsed at ho
      cases hl : parseLines (i + 1) (j + 1) f.lines with
      | error e => simp only [hl] at ho; cases ho
      | ok os =>
        simp only [hl] at ho
        exact parseLines_ids hl o ho

theorem parse_patterns_ok_inv {pats : List (List CSVFile)} {f nm : String} {doc : Annot}
    (h : parse_patterns pats f = .ok (nm, doc)) :
    nm = "test.jams" ∧ doc = mkAnnot doc.data ∧ parsePats 1 pats = .ok doc.data := by
  unfold parse_patterns at h
  cases hp : parsePats 1 pats with
  | error e => simp only [hp] at h; cases h
  | ok obs =>
    simp only [hp] at h
    cases h
    refine ⟨rfl, rfl, ?_⟩
    simpa [mkAnnot] using hp

theorem parse_patterns_data {pats : List (List CSVFile)} {f nm : String} {doc : Annot}
    (h : parse_patterns pats f = .ok (nm, doc)) :
    doc.data = docObs pats := by
  obtain ⟨-, -, hp⟩ := parse_patterns_ok_inv h
  have hflat := parsePats_flatten hp
  unfold docObs
  rw [hflat]
  have houter : mapIdxFrom (fun pn pat => patParsed pn pat) 1 pats =
      mapIdxFrom (fun i pat => patParsed (i + 1) pat) 0 pats := by
    have := mapIdxFrom_shift (fun pn pat => patParsed pn pat) pats 0
    simpa using this
  rw [houter]
  congr 1
  apply mapIdxFrom_congr
  intro i pat hi
  simp only [Nat.zero_add]
  obtain ⟨os, hos⟩ := parsePats_ok_at hp hi
  have harith : 1 + i = i + 1 := by omega
  rw [harith] at hos
  have hpat : patParsed (i + 1) pat = os := by
    unfold patParsed; rw [hos]
  rw [hpat]
  have hinner := parseOccs_flatten hos
  rw [hinner]
  congr 1
  have hshift : mapIdxFrom (fun onum f' => occParsed (i + 1) onum f') 1 pat =
      mapIdxFrom (fun j f' => occParsed (i + 1) (j + 1) f') 0 pat := by
    have := mapIdxFrom_shift (fun onum f' => occParsed (i + 1) onum f') pat 0
    simpa using this
  rw [hshift]
  apply mapIdxFrom_congr
  intro j f' hj
  simp only [Nat.zero_add]
  exact (occObs_eq hi hj).symm

theorem mem_docObs {pats : List (List CSVFile)} {o : Observation}
    (ho : o ∈ docObs pats) : ∃ i j, o ∈ occObs pats i j := by
  unfold docObs at ho
  obtain ⟨block, hblock, hoblock⟩ := List.mem_flatten.mp ho
  obtain ⟨i, pat, hpat, rfl⟩ := mem_mapIdxFrom hblock
  obtain ⟨inner, hinner, hoinner⟩ := List.mem_flatten.mp hoblock
  obtain ⟨j, f', hf', rfl⟩ := mem_mapIdxFrom hinner
  exact ⟨0 + i, 0 + j, hoinner⟩

theorem rowMalformed_not_ok {fields : List String} (hbad : rowMalformed fields) :
    ∀ pattern_n occ_n o, parseRow pattern_n occ_n fields ≠ .ok o := by
  intro pattern_n occ_n o hok
  obtain ⟨i0, i1, i2, i3, i4, -, -⟩ := parseRow_ok_inv hok
  rcases hbad with hlen | hbad | hbad | hbad | hbad | hbad
  · exact absurd (parseRow_ok_length hok) (by omega)
  · obtain ⟨s, hs, hnone⟩ := hbad
    obtain ⟨s', hs', hsome⟩ := fieldFloat_ok_inv i0
    rw [hs] at hs'
    cases hs'
    rw [hnone] at hsome
    cases hsome
  · obtain ⟨s, hs, hnone⟩ := hbad
    obtain ⟨s', hs', hsome⟩ := fieldFloat_ok_inv i1
    rw [hs] at hs'
    cases hs'
    rw [hnone] at hsome
    cases hsome
  · obtain ⟨s, hs, hnone⟩ := hbad
    obtain ⟨s', hs', hsome⟩ := fieldFloat_ok_inv i2
    rw [hs] at hs'
    cases hs'
    rw [hnone] at hsome
    cases hsome
  · obtain ⟨s, hs, hnone⟩ := hbad
    obtain ⟨s', hs', hsome⟩ := fieldFloat_ok_inv i3
    rw [hs] at hs'
    cases hs'
    rw [hnone] at hsome
    cases hsome
  · obtain ⟨s, hs, hnone⟩ := hbad
    obtain ⟨s', hs', hsome⟩ := fieldInt_ok_inv i4
    rw [hs] at hs'
    cases hs'
    rw [hnone] at hsome
    cases hsome

theorem parsePats_error_of_malformed {pats : List (List CSVFile)}
    {pat : List CSVFile} {fl : CSVFile} {line : String}
    (hpat : pat ∈ pats) (hfl : fl ∈ pat) (hline : line ∈ fl.lines)
    (hbad : rowMalformed (csvSplit line)) :
    ∃ e, parsePats 1 pats = .error e := by
  cases hp : parsePats 1 pats with
  | error e => exact ⟨e, rfl⟩
  | ok obs =>
    exfalso
    obtain ⟨i, hi⟩ := List.mem_iff_getElem?.mp hpat
    obtain ⟨os, hos⟩ := parsePats_ok_at hp hi
    obtain ⟨j, hj⟩ := List.mem_iff_getElem?.mp hfl
    obtain ⟨os', hos'⟩ := parseOccs_ok_at hos hj
    obtain ⟨o, ho⟩ := parseLines_ok_mem hos' line hline
    exact rowMalformed_not_ok hbad _ _ o ho

theorem findIdx?_first {p : String → Bool} {x : String} (hx : p x = true) :
    ∀ (pre rest : List String), (∀ y ∈ pre, p y = false) →
    ∀ i, List.findIdx? p (pre ++ x :: rest) i = some (i + pre.length) := by
  intro pre
  induction pre with
  | nil =>
    intro rest _ i
    simp [List.findIdx?_cons, hx]
  | cons a pre' ih =>
    intro rest hpre i
    have ha : p a = false := hpre a (by simp)
    simp only [List.cons_append, List.findIdx?_cons, ha]
    have := ih rest (fun y hy => hpre y (by simp [hy])) (i + 1)
    simp only [Bool.false_eq_true, if_false, this, List.length_cons]
    congr 1
    omega

theorem diskAfter_foldl_ne {n k : String} (hk : k ≠ n) :
    ∀ (ws : List (String × Annot)) (d : String → Option Annot),
    (∀ w ∈ ws, w.1 = n) →
    ws.foldl (fun d w => fun k' => if k' = w.1 then some w.2 else d k') d k = d k := by
  intro ws
  induction ws with
  | nil => intro d _; rfl
  | cons w rest ih =>
    intro d hall
    simp only [List.foldl_cons]
    rw [ih _ (fun w' hw' => hall w' (by simp [hw']))]
    have hw : w.1 = n := hall w (by simp)
    rw [hw, if_neg hk]

theorem diskAfter_foldl_last {n : String} :
    ∀ (ws : List (String × Annot)) (d : String → Option Annot),
    (∀ w ∈ ws, w.1 = n) →
    ws.foldl (fun d w => fun k' => if k' = w.1 then some w.2 else d k') d n =
      match ws.getLast? with
      | none => d n
      | some w => some w.2 := by
  intro ws
  induction ws with
  | nil => intro d _; rfl
  | cons w rest ih =>
    intro d hall
    simp only [List.foldl_cons]
    rw [ih _ (fun w' hw' => hall w' (by simp [hw']))]
    cases rest with
    | nil =>
      simp only [List.getLast?_nil, List.getLast?_singleton]
      have hw : w.1 = n := hall w (by simp)
      rw [hw, if_pos rfl]
    | cons w2 rest2 =>
      cases hgl : (w2 :: rest2).getLast? with
      | none => simp [List.getLast?_eq_none_iff] at hgl
      | some w3 => simp [hgl]

theorem processLoop_writes {out_dir : String} :
    ∀ (l : List (List (List CSVFile))) (w : String × Annot),
    w ∈ (processLoop out_dir l).1 → w.1 = "test.jams" := by
  intro l
  induction l with
  | nil => intro w hw; cases hw
  | cons patterns rest ih =>
    intro w hw
    unfold processLoop at hw
    cases ho : get_out_file patterns out_dir with
    | error e => simp only [ho] at hw; cases hw
    | ok out_file =>
      simp only [ho] at hw
      cases hp : parse_patterns patterns out_file with
      | error e => simp only [hp] at hw; cases hw
      | ok w' =>
        simp only [hp] at hw
        obtain ⟨nm2, doc2⟩ := w'
        rcases List.mem_cons.mp hw with rfl | hmem
        · exact (parse_patterns_ok_inv hp).1
        · exact ih w hmem

theorem parseFloat_onePointFive : parseFloat "1.5" = some (1.5 : Rat) := by
  unfold parseFloat
  norm_num [show "1.5".toList = ['1', '.', '5'] from rfl,
            show splitSignChars ['1', '.', '5'] = (1, ['1', '.', '5']) from rfl,
            show splitListOn '.' ['1', '.', '5'] = [['1'], ['5']] from rfl,
            digitsVal,
            show '1'.isDigit = true from by decide,
            show '5'.isDigit = true from by decide,
            show ('1'.toNat - 48 : Nat) = 1 from by decide,
            show ('5'.toNat - 48 : Nat) = 5 from by decide]

theorem parseFloat_zeroPointFive : parseFloat "0.5" = some (0.5 : Rat) := by
  unfold parseFloat
  norm_num [show "0.5".toList = ['0', '.', '5'] from rfl,
            show splitSignChars ['0', '.', '5'] = (1, ['0', '.', '5']) from rfl,
            show splitListOn '.' ['0', '.', '5'] = [['0'], ['5']] from rfl,
            digitsVal,
            show '0'.isDigit = true from by decide,
            show '5'.isDigit = true from by decide,
            show ('0'.toNat - 48 : Nat) = 0 from by decide,
            show ('5'.toNat - 48 : Nat) = 5 from by decide]

theorem parseFloat_sixty : parseFloat "60" = some (60 : Rat) := by
  unfold parseFloat
  norm_num [show "60".toList = ['6', '0'] from rfl,
            show splitSignChars ['6', '0'] = (1, ['6', '0']) from rfl,
            show splitListOn '.' ['6', '0'] = [['6', '0']] from rfl,
            digitsVal,
            show '6'.isDigit = true from by decide,
            show '0'.isDigit = true from by decide,
            show ('6'.toNat - 48 : Nat) = 6 from by decide,
            show ('0'.toNat - 48 : Nat) = 0 from by decide]
  intro h
  simp at h

theorem parseFloat_thirtyThree : parseFloat "33" = some (33 : Rat) := by
  unfold parseFloat
  norm_num [show "33".toList = ['3', '3'] from rfl,
            show splitSignChars ['3', '3'] = (1, ['3', '3']) from rfl,
            show splitListOn '.' ['3', '3'] = [['3', '3']] from rfl,
            digitsVal,
            show '3'.isDigit = true from by decide,
            show ('3'.toNat - 48 : Nat) = 3 from by decide]
  intro h
  simp at h

theorem csvSplit_jkuRow : csvSplit jkuRow = ["1.5", "60", "33", "0.5", "1"] := by decide

theorem parseRow_jkuRow (pattern_n occ_n : Nat) :
    parseRow pattern_n occ_n (csvSplit jkuRow) = .ok (jkuObs pattern_n occ_n) := by
  have h0 : fieldFloat (csvSplit jkuRow) 0 = .ok (1.5 : Rat) := by
    simp [fieldFloat, csvSplit_jkuRow, parseFloat_onePointFive]
  have h1 : fieldFloat (csvSplit jkuRow) 1 = .ok (60 : Rat) := by
    simp [fieldFloat, csvSplit_jkuRow, parseFloat_sixty]
  have h2 : fieldFloat (csvSplit jkuRow) 2 = .ok (33 : Rat) := by
    simp [fieldFloat, csvSplit_jkuRow, parseFloat_thirtyThree]
  have h3 : fieldFloat (csvSplit jkuRow) 3 = .ok (0.5 : Rat) := by
    simp [fieldFloat, csvSplit_jkuRow, parseFloat_zeroPointFive]
  have h4 : fieldInt (csvSplit jkuRow) 4 = .ok (1 : Int) := by decide
  rw [parseRow_of_fields pattern_n occ_n h0 h1 h2 h3 h4]
  rfl

theorem parseLines_jkuRow (pattern_n occ_n : Nat) :
    parseLines pattern_n occ_n [jkuRow] = .ok [jkuObs pattern_n occ_n] := by
  simp [parseLines, parseRow_jkuRow]

theorem parseOccs_single_jku (pattern_n occ_n : Nat) (f : CSVFile) (hf : f.lines = [jkuRow]) :
    parseOccs pattern_n occ_n [f] = .ok [jkuObs pattern_n occ_n] := by
  simp [parseOccs, hf, parseLines_jkuRow]

theorem parse_patterns_single_jku (f : CSVFile) (hf : f.lines = [jkuRow]) (out : String) :
    parse_patterns [[f]] out = .ok ("test.jams", mkAnnot [jkuObs 1 1]) := by
  simp [parse_patterns, parsePats, parseOccs_single_jku 1 1 f hf]

theorem parse_patterns_gap_jku (f1 f2 : CSVFile)
    (hf1 : f1.lines = [jkuRow]) (hf2 : f2.lines = [jkuRow]) (out : String) :
    parse_patterns [[f1], [], [f2]] out = .ok ("test.jams", mkAnnot [jkuObs 1 1, jkuObs 3 1]) := by
  simp [parse_patterns, parsePats, parseOccs_single_jku 1 1 f1 hf1,
        parseOccs_single_jku 3 1 f2 hf2,
        show parseOccs 2 1 ([] : List CSVFile) = .ok [] from rfl]

theorem all_patterns_cons (p : Piece) (rest : List Piece) :
    all_patterns (p :: rest) =
      processPieceType p AnnType.monophonic :: processPieceType p AnnType.polyphonic ::
        all_patterns rest := rfl

theorem all_patterns_length (pieces : List Piece) :
    (all_patterns pieces).length = 2 * pieces.length := by
  induction pieces with
  | nil => rfl
  | cons p rest ih =>
    rw [all_patterns_cons]
    simp only [List.length_cons, ih]
    omega

theorem all_patterns_get (pieces : List Piece) :
    ∀ (k : Nat) (p : Piece), pieces[k]? = some p →
    (all_patterns pieces)[2 * k]? = some (processPieceType p AnnType.monophonic) ∧
    (all_patterns pieces)[2 * k + 1]? = some (processPieceType p AnnType.polyphonic) := by
  induction pieces with
  | nil => intro k p hk; simp at hk
  | cons p0 rest ih =>
    intro k p hk
    cases k with
    | zero =>
      simp only [List.getElem?_cons_zero] at hk
      cases hk
      rw [all_patterns_cons]
      exact ⟨by simp, by simp⟩
    | succ kk =>
      simp only [List.getElem?_cons_succ] at hk
      have hres := ih kk p hk
      rw [all_patterns_cons]
      have h2 : 2 * (kk + 1) = 2 * kk + 1 + 1 := by omega
      rw [h2]
      simp only [List.getElem?_cons_succ]
      exact hres

/-- C1: for a piece with at least one valid annotator and at least one pattern, the
produced document contains exactly the observations parsed from every occurrence CSV
under those annotators, in pattern order, then occurrence order within each pattern,
then CSV row order within each occurrence. -/
theorem c1_document_exact_observations
    (annotators : List Annotator) (h0 : annotators ≠ [])
    (pats : List (List CSVFile)) (hp : pats = get_gt_patterns annotators)
    (h1 : pats ≠ []) (f nm : String) (doc : Annot)
    (h : parse_patterns pats f = .ok (nm, doc)) :
    pats = annotators.flatMap
      (fun a => (a.patterns.filter fun e => e.isDir).map fun e => e.occurrences) ∧
    doc.data = docObs pats ∧
    (∀ i j pat fl, pats[i]? = some pat → pat[j]? = some fl →
      ∃ os, parseLines (i + 1) (j + 1) fl.lines = .ok os ∧ occObs pats i j = os) := by
  refine ⟨by rw [hp]; rfl, parse_patterns_data h, ?_⟩
  intro i j pat fl hi hj
  obtain ⟨-, -, hpp⟩ := parse_patterns_ok_inv h
  obtain ⟨os, hos⟩ := parsePats_ok_at hpp hi
  have harith : 1 + i = i + 1 := by omega
  rw [harith] at hos
  obtain ⟨os', hos'⟩ := parseOccs_ok_at hos hj
  have harith2 : 1 + j = j + 1 := by omega
  rw [harith2] at hos'
  refine ⟨os', hos', ?_⟩
  rw [occObs_eq hi hj]
  unfold occParsed
  rw [hos']

/-- Witness for C1: a one-annotator, one-pattern, one-row dataset, evaluated. -/
theorem c1_witness :
    get_gt_patterns [c3Mono] = [[c3MonoFile]] ∧
    parse_patterns [[c3MonoFile]] "out/bach-wtc2f20.txt" =
      .ok ("test.jams", mkAnnot [jkuObs 1 1]) ∧
    (mkAnnot [jkuObs 1 1]).data = docObs [[c3MonoFile]] := by
  have hgt : get_gt_patterns [c3Mono] = [[c3MonoFile]] := rfl
  have hpp : parse_patterns [[c3MonoFile]] "out/bach-wtc2f20.txt" =
      .ok ("test.jams", mkAnnot [jkuObs 1 1]) :=
    parse_patterns_single_jku c3MonoFile rfl _
  refine ⟨hgt, hpp, ?_⟩
  exact (c1_document_exact_observations [c3Mono] (by simp) [[c3MonoFile]] hgt.symm (by simp)
    _ _ _ hpp).2.1

/-- C2 (evaluation at the failing input): with two adjacent non-allow-listed
polyphonic annotators, the in-place `remove` filter of `process` keeps the second
one, so its occurrence CSV contributes an observation to the produced document,
contradicting the allow-list policy. -/
theorem c2_invalid_annotator_contributes :
    badAnnotator c2AnnotA = true ∧ badAnnotator c2AnnotB = true ∧
    pyFilterRemove badAnnotator [c2AnnotA, c2AnnotB] = [c2AnnotB] ∧
    processPieceType c2Piece AnnType.polyphonic = [[c2File]] ∧
    parse_patterns (processPieceType c2Piece AnnType.polyphonic) "out/chopin-mazurka24-4.txt" =
      .ok ("test.jams", mkAnnot [jkuObs 1 1]) := by
  have hpt : processPieceType c2Piece AnnType.polyphonic = [[c2File]] := by decide
  refine ⟨by decide, by decide, by decide, hpt, ?_⟩
  rw [hpt]
  exact parse_patterns_single_jku c2File rfl _

/-- C3 (counterexample): a single discovered piece with both annotation types
present produces two entries in `all_patterns` — the monophonic and polyphonic
pattern lists stay separate — and hence two annotation-builder invocations and two
saved documents, not one. -/
theorem c3_counterexample :
    [c3Piece].length = 1 ∧
    (all_patterns [c3Piece]).length = 2 ∧
    all_patterns [c3Piece] = [[[c3MonoFile]], [[c3PolyFile]]] ∧
    all_patterns [c3Piece] ≠ [[[c3MonoFile], [c3PolyFile]]] ∧
    (process [c3Piece] "out").1.length = 2 := by
  have hap : all_patterns [c3Piece] = [[[c3MonoFile]], [[c3PolyFile]]] := by decide
  refine ⟨rfl, by rw [hap]; rfl, hap, by rw [hap]; decide, ?_⟩
  have h1 : get_out_file [[c3MonoFile]] "out" = .ok "out/bach-wtc2f20.txt" := by decide
  have h2 : get_out_file [[c3PolyFile]] "out" = .ok "out/bach-wtc2f20.txt" := by decide
  have hp1 := parse_patterns_single_jku c3MonoFile rfl "out/bach-wtc2f20.txt"
  have hp2 := parse_patterns_single_jku c3PolyFile rfl "out/bach-wtc2f20.txt"
  unfold process
  rw [hap]
  unfold processLoop
  simp only [h1, hp1]
  unfold processLoop
  simp only [h2, hp2]
  rfl

/-- C3 (amended): each discovered piece is consumed to produce two annotation
documents, one per annotation type: entry `2k` of `all_patterns` is the flat
monophonic pattern list of piece `k` and entry `2k + 1` its flat polyphonic
pattern list, and the builder runs once per entry. -/
theorem c3_amended_two_documents_per_piece
    (pieces : List Piece) (k : Nat) (p : Piece) (hk : pieces[k]? = some p) :
    (all_patterns pieces).length = 2 * pieces.length ∧
    (all_patterns pieces)[2 * k]? = some (processPieceType p AnnType.monophonic) ∧
    (all_patterns pieces)[2 * k + 1]? = some (processPieceType p AnnType.polyphonic) :=
  ⟨all_patterns_length pieces, (all_patterns_get pieces k p hk).1,
   (all_patterns_get pieces k p hk).2⟩

/-- Witness for the amended C3 at a concrete one-piece dataset. -/
theorem c3_amended_witness :
    (all_patterns [c3Piece]).length = 2 * [c3Piece].length ∧
    (all_patterns [c3Piece])[0]? = some (processPieceType c3Piece AnnType.monophonic) ∧
    (all_patterns [c3Piece])[1]? = some (processPieceType c3Piece AnnType.polyphonic) := by
  have h := c3_amended_two_documents_per_piece [c3Piece] 0 c3Piece (by simp)
  simpa using h

/-- C4: every save goes to the one literal filename `test.jams` — the computed
per-piece output name is ignored by `parse_patterns` — so after processing, the
only file on disk is `test.jams` holding the document of the last processed
pattern list. -/
theorem c4_fixed_output_filename (pieces : List Piece) (out_dir : String) :
    (∀ pats f1 f2, parse_patterns pats f1 = parse_patterns pats f2) ∧
    (∀ w ∈ (process pieces out_dir).1, w.1 = "test.jams") ∧
    (∀ k, k ≠ "test.jams" → diskAfter (process pieces out_dir).1 k = none) ∧
    diskAfter (process pieces out_dir).1 "test.jams" =
      ((process pieces out_dir).1.getLast?).map Prod.snd := by
  have hw : ∀ w ∈ (process pieces out_dir).1, w.1 = "test.jams" :=
    fun w hmem => processLoop_writes (all_patterns pieces) w hmem
  refine ⟨fun pats f1 f2 => rfl, hw, ?_, ?_⟩
  · intro k hk
    exact diskAfter_foldl_ne hk _ _ hw
  · unfold diskAfter
    rw [diskAfter_foldl_last _ _ hw]
    cases (process pieces out_dir).1.getLast? <;> rfl

/-- Witness for C4: a two-piece run, every write targeting `test.jams`. -/
theorem c4_witness :
    (∀ w ∈ (process [c3Piece, c4Piece] "out").1, w.1 = "test.jams") ∧
    diskAfter (process [c3Piece, c4Piece] "out").1 "out/bach-wtc2f20.txt" = none ∧
    diskAfter (process [c3Piece, c4Piece] "out").1 "test.jams" =
      ((process [c3Piece, c4Piece] "out").1.getLast?).map Prod.snd := by
  have h := c4_fixed_output_filename [c3Piece, c4Piece] "out"
  exact ⟨h.2.1, h.2.2.1 _ (by decide), h.2.2.2⟩

/-- C5: in every produced document the observations of the pattern at position `i`
and occurrence at position `j` carry `pattern_id = i + 1` and
`occurrence_id = j + 1` — ids are assigned sequentially from 1 in pattern order,
`occurrence_id` restarts at 1 for every new pattern, and both are always at
least 1. -/
theorem c5_sequential_ids (pats : List (List CSVFile)) (f nm : String) (doc : Annot)
    (h : parse_patterns pats f = .ok (nm, doc)) :
    doc.data = docObs pats ∧
    (∀ i j o, o ∈ occObs pats i j →
      o.value.pattern_id = i + 1 ∧ o.value.occurrence_id = j + 1) ∧
    (∀ o ∈ doc.data, 1 ≤ o.value.pattern_id ∧ 1 ≤ o.value.occurrence_id) := by
  refine ⟨parse_patterns_data h, fun i j o ho => occObs_ids ho, ?_⟩
  intro o ho
  rw [parse_patterns_data h] at ho
  obtain ⟨i, j, hij⟩ := mem_docObs ho
  obtain ⟨hpid, hoid⟩ := occObs_ids hij
  omega

/-- Witness for C5 at a concrete one-pattern document. -/
theorem c5_witness :
    parse_patterns [[c4File1]] "o" = .ok ("test.jams", mkAnnot [jkuObs 1 1]) ∧
    (mkAnnot [jkuObs 1 1]).data = docObs [[c4File1]] ∧
    (∀ o ∈ (mkAnnot [jkuObs 1 1]).data,
      1 ≤ o.value.pattern_id ∧ 1 ≤ o.value.occurrence_id) := by
  have hpp := parse_patterns_single_jku c4File1 rfl "o"
  have h := c5_sequential_ids [[c4File1]] "o" _ _ hpp
  exact ⟨hpp, h.1, h.2.2⟩

/-- C6: a row with fewer than 5 columns or a column that fails its numeric
conversion makes `parseRow` fail with a `ParseError`; any such row anywhere in a
piece's pattern list makes the whole document fail — nothing is written for that
piece and the error propagates out of the processing loop. -/
theorem c6_malformed_row_aborts :
    (∀ pattern_n occ_n fields, rowMalformed fields →
      ∃ e, parseRow pattern_n occ_n fields = .error e) ∧
    (∀ pats out_dir rest pat fl line ofile,
      pat ∈ pats → fl ∈ pat → line ∈ fl.lines → rowMalformed (csvSplit line) →
      get_out_file pats out_dir = .ok ofile →
      ∃ e, (∀ f, parse_patterns pats f = .error e) ∧
        processLoop out_dir (pats :: rest) = ([], some (ProcError.parse e))) := by
  constructor
  · intro pattern_n occ_n fields hbad
    cases hr : parseRow pattern_n occ_n fields with
    | error e => exact ⟨e, rfl⟩
    | ok o => exact absurd hr (rowMalformed_not_ok hbad _ _ o)
  · intro pats out_dir rest pat fl line ofile hpat hfl hline hbad hof
    obtain ⟨e, he⟩ := parsePats_error_of_malformed hpat hfl hline hbad
    have hpe : ∀ f, parse_patterns pats f = .error e := by
      intro f
      unfold parse_patterns
      rw [he]
    refine ⟨e, hpe, ?_⟩
    unfold processLoop
    simp only [hof, hpe ofile]

/-- Witness for C6: a two-column row aborts its piece with no write. -/
theorem c6_witness :
    ∃ e, (∀ f, parse_patterns [[c6File]] f = .error e) ∧
      processLoop "out" [[[c6File]]] = ([], some (ProcError.parse e)) :=
  c6_malformed_row_aborts.2 [[c6File]] "out" [] [c6File] c6File "1.5,60"
    "out/mozart-sonata04-2.txt" (by decide) (by decide) (by decide)
    (Or.inl (by decide)) (by decide)

/-- C7: deriving the output file requires a non-empty pattern list: on the empty
list `get_out_file` fails with the assertion error (InvalidInput) and the
processing loop performs no write for it. -/
theorem c7_empty_pattern_list (out_dir : String) (rest : List (List (List CSVFile))) :
    get_out_file [] out_dir = .error OutFileError.assertionError ∧
    processLoop out_dir ([] :: rest) =
      ([], some (ProcError.outFile OutFileError.assertionError)) :=
  ⟨rfl, rfl⟩

/-- C8: column 0 of a CSV row is parsed as the onset time, column 1 as MIDI pitch,
column 2 as morphetic pitch, column 3 as duration and column 4 as the staff
integer. -/
theorem c8_column_mapping (pattern_n occ_n : Nat) (fields : List String)
    (t midi morph dur : Rat) (staff : Int)
    (h0 : fieldFloat fields 0 = .ok t) (h1 : fieldFloat fields 1 = .ok midi)
    (h2 : fieldFloat fields 2 = .ok morph) (h3 : fieldFloat fields 3 = .ok dur)
    (h4 : fieldInt fields 4 = .ok staff) :
    parseRow pattern_n occ_n fields =
      .ok { time := t, duration := dur,
            value := { midi_pitch := midi, morph_pitch := morph, staff := staff,
                       pattern_id := pattern_n, occurrence_id := occ_n } } :=
  parseRow_of_fields pattern_n occ_n h0 h1 h2 h3 h4

/-- Witness for C8: the row `"1.5,60,33,0.5,1"` yields time 1.5, MIDI pitch 60,
morphetic pitch 33, duration 0.5, staff 1. -/
theorem c8_witness :
    parseRow 1 1 (csvSplit "1.5,60,33,0.5,1") =
      .ok { time := 1.5, duration := 0.5,
            value := { midi_pitch := 60, morph_pitch := 33, staff := 1,
                       pattern_id := 1, occurrence_id := 1 } } := by
  have hx : csvSplit "1.5,60,33,0.5,1" = ["1.5", "60", "33", "0.5", "1"] := csvSplit_jkuRow
  apply c8_column_mapping
  · simp [fieldFloat, hx, parseFloat_onePointFive]
  · simp [fieldFloat, hx, parseFloat_sixty]
  · simp [fieldFloat, hx, parseFloat_thirtyThree]
  · simp [fieldFloat, hx, parseFloat_zeroPointFive]
  · decide

/-- C9: for a non-empty pattern list, the output filename is formed from the two
path segments immediately after the first `groundTruth` segment of the first
occurrence file's path, joined with a hyphen, under the output directory. -/
theorem c9_output_name_derivation (pre post : List String) (coll pc : String)
    (f0 : CSVFile) (occRest : List CSVFile) (patsRest : List (List CSVFile))
    (out_dir : String)
    (hsplit : pathSplit f0.path = pre ++ "groundTruth" :: coll :: pc :: post)
    (hpre : "groundTruth" ∉ pre) :
    get_out_file ((f0 :: occRest) :: patsRest) out_dir =
      .ok (joinPath out_dir (coll ++ "-" ++ pc ++ ".txt")) := by
  have hfalse : ∀ y ∈ pre, (y == "groundTruth") = false := by
    intro y hy
    simp only [beq_eq_false_iff_ne, ne_eq]
    intro heq
    exact hpre (heq ▸ hy)
  have hfi : List.findIdx? (· == "groundTruth") (pre ++ "groundTruth" :: coll :: pc :: post) =
      some (0 + pre.length) :=
    findIdx?_first (by simp) pre _ hfalse 0
  have hget1 : (pre ++ "groundTruth" :: coll :: pc :: post)[pre.length + 1]? = some coll := by
    rw [List.getElem?_append_right (by omega)]
    have harith : pre.length + 1 - pre.length = 1 := by omega
    rw [harith]
    simp [List.getElem?_cons_succ, List.getElem?_cons_zero]
  have hget2 : (pre ++ "groundTruth" :: coll :: pc :: post)[pre.length + 2]? = some pc := by
    rw [List.getElem?_append_right (by omega)]
    have harith : pre.length + 2 - pre.length = 2 := by omega
    rw [harith]
    simp [List.getElem?_cons_succ, List.getElem?_cons_zero]
  unfold get_out_file
  simp only [hsplit, hfi, Nat.zero_add, hget1, hget2]

/-- Witness for C9 at a concrete occurrence path. -/
theorem c9_witness :
    get_out_file [[{ path := "data/groundTruth/coll/piece/monophonic/x.csv",
                     lines := [] }]] "out" =
      .ok (joinPath "out" ("coll" ++ "-" ++ "piece" ++ ".txt")) :=
  c9_output_name_derivation ["data"] ["monophonic", "x.csv"] "coll" "piece"
    { path := "data/groundTruth/coll/piece/monophonic/x.csv", lines := [] } [] [] "out"
    (by decide) (by decide)

/-- C10: a pattern directory with no occurrence CSVs still appears in the pattern
list as an empty occurrence list and still consumes a pattern id: no observation
carries that id, while observations of later patterns carry strictly larger ids. -/
theorem c10_empty_pattern_consumes_id
    (annotators : List Annotator) (a : Annotator) (e : PatternEntry)
    (ha : a ∈ annotators) (he : e ∈ a.patterns) (hd : e.isDir = true)
    (hocc : e.occurrences = []) :
    ([] : List CSVFile) ∈ get_gt_patterns annotators ∧
    (∀ pats i f nm doc, pats[i]? = some ([] : List CSVFile) →
      parse_patterns pats f = .ok (nm, doc) →
      (∀ o ∈ doc.data, o.value.pattern_id ≠ i + 1) ∧
      (∀ k j o, i < k → o ∈ occObs pats k j → i + 1 < o.value.pattern_id)) := by
  constructor
  · unfold get_gt_patterns
    refine List.mem_flatMap.mpr ⟨a, ha, ?_⟩
    exact List.mem_map.mpr ⟨e, List.mem_filter.mpr ⟨he, hd⟩, hocc⟩
  · intro pats i f nm doc hi hdoc
    constructor
    · intro o ho hpid
      rw [parse_patterns_data hdoc] at ho
      obtain ⟨i', j', hij⟩ := mem_docObs ho
      obtain ⟨hpid', -⟩ := occObs_ids hij
      have hii : i' = i := by omega
      subst hii
      unfold occObs at hij
      simp only [hi] at hij
      simp at hij
    · intro k j o hik ho
      obtain ⟨hpid, -⟩ := occObs_ids ho
      omega

/-- Witness for C10: a three-pattern list whose middle pattern is empty — pattern
id 2 is consumed but appears in no observation, and the third pattern's
observations carry id 3. -/
theorem c10_witness :
    ([] : List CSVFile) ∈ get_gt_patterns [c10Annotator] ∧
    parse_patterns [[c3MonoFile], [], [c4File1]] "o" =
      .ok ("test.jams", mkAnnot [jkuObs 1 1, jkuObs 3 1]) ∧
    (∀ o ∈ (mkAnnot [jkuObs 1 1, jkuObs 3 1]).data, o.value.pattern_id ≠ 1 + 1) ∧
    (∀ k j o, 1 < k → o ∈ occObs [[c3MonoFile], [], [c4File1]] k j →
      1 + 1 < o.value.pattern_id) := by
  have hthm := c10_empty_pattern_consumes_id [c10Annotator] c10Annotator
    { isDir := true, occurrences := [] } (by decide) (by decide) rfl rfl
  have hpp := parse_patterns_gap_jku c3MonoFile c4File1 rfl rfl "o"
  have h2 := hthm.2 [[c3MonoFile], [], [c4File1]] 1 "o" _ _ (by decide) hpp
  exact ⟨hthm.1, hpp, h2.1, h2.2⟩

/-- Witness for C7 at a concrete output directory. -/
theorem c7_witness :
    get_out_file [] "out" = .error OutFileError.assertionError ∧
    processLoop "out" ([] :: []) =
      ([], some (ProcError.outFile OutFileError.assertionError)) :=
  c7_empty_pattern_list "out" []
